import Mathlib

/-!
# Verification of the real-time audio streaming pipeline (LiveMode)

A shallow embedding of the voice-mode core of the application:
the PCM codec, the gapless playback scheduler, the barge-in
interruption handler, the idempotent resource cleanup, and the
connection lifecycle state machine, together with theorems checking
the specification's claims against this embedding.

Sample values and clock times are modelled as rationals, byte buffers
as lists of naturals, and the mutable refs of the component as one
explicit record of state.
-/

namespace LiveAgent

/-! ## EncodingCodec

`src/utils/audioUtils.ts` is not among the provided sources; the codec is
modelled from the spec (section 4.2 EncodingCodec).
-/

/-- Truncation of a rational toward zero, the integer conversion used when a
scaled sample is written into a signed 16-bit slot. -/
def ratTrunc (q : ℚ) : ℤ :=
  if 0 ≤ q then ⌊q⌋ else ⌈q⌉

/-- Clamp a sample to the interval `[-1, 1]`. -/
def clampSample (s : ℚ) : ℚ :=
  max (-1) (min 1 s)

/-- Modelled from the spec: `encode` of the EncodingCodec (the file
`audioUtils.ts` is missing from the sources) — "clamps each sample to
[-1,1], scales by 32767, writes little-endian 16-bit integers".  This is
the per-sample integer value, before byte serialization. -/
def encodeSample (s : ℚ) : ℤ :=
  ratTrunc (clampSample s * 32767)

/-- Modelled from the spec: `decode` of the EncodingCodec — "inverse,
scaling by 1/32768" — per 16-bit sample value. -/
def decodeSample (i : ℤ) : ℚ :=
  (i : ℚ) / 32768

/-- The unsigned 16-bit representation (two's complement) of an integer
sample value. -/
def toUInt16 (i : ℤ) : ℕ :=
  (i % 65536).toNat

/-- Little-endian byte serialization of one 16-bit sample value. -/
def sampleToBytes (i : ℤ) : List ℕ :=
  [toUInt16 i % 256, toUInt16 i / 256]

/-- Read one 16-bit little-endian signed sample value from two bytes. -/
def bytesToSample (lo hi : ℕ) : ℤ :=
  let u := lo + 256 * hi
  if u < 32768 then (u : ℤ) else (u : ℤ) - 65536

/-- Deserialize a PCM16LE byte buffer into 16-bit sample values; a
trailing partial sample is truncated, never padded (spec 4.2). -/
def bytesToInts : List ℕ → List ℤ
  | lo :: hi :: rest => bytesToSample lo hi :: bytesToInts rest
  | _ => []

/-- Serialize 16-bit sample values into a PCM16LE byte buffer. -/
def intsToBytes (is : List ℤ) : List ℕ :=
  (is.map sampleToBytes).flatten

/-- Modelled from the spec: `decode` on a whole byte buffer — PCM16LE
bytes to float samples, each scaled by 1/32768. -/
def decodeBytes (bs : List ℕ) : List ℚ :=
  (bytesToInts bs).map decodeSample

/-- Modelled from the spec: `encode` on a whole float frame — clamp,
scale by 32767, write little-endian 16-bit integers. -/
def encodeFloats (ss : List ℚ) : List ℕ :=
  intsToBytes (ss.map encodeSample)

/-! ## PlaybackScheduler: the gapless scheduling recurrence

`onmessage` (LiveMode.tsx lines 142, 165–166) runs, per inbound audio
chunk, with `t` the output clock reading and `d` the decoded buffer's
duration:

    nextStartTime := max nextStartTime t
    start the buffer at nextStartTime
    nextStartTime := nextStartTime + d

`schedule next chunks` returns the list of scheduled start times for a
sequence of chunks `(t, d)` processed with no interruption in between. -/
def schedule (next : ℚ) : List (ℚ × ℚ) → List ℚ
  | [] => []
  | (t, d) :: rest =>
      let s := max next t
      s :: schedule (s + d) rest

theorem length_schedule (next : ℚ) (cs : List (ℚ × ℚ)) :
    (schedule next cs).length = cs.length := by
  induction cs generalizing next with
  | nil => rfl
  | cons c rest ih => simpa [schedule] using ih _

/-! ### Codec lemmas -/

theorem clampSample_eq_self {s : ℚ} (h1 : -1 ≤ s) (h2 : s ≤ 1) :
    clampSample s = s := by
  simp [clampSample, max_eq_right, min_eq_right, h1, h2]

theorem clampSample_mem (s : ℚ) :
    -1 ≤ clampSample s ∧ clampSample s ≤ 1 := by
  constructor
  · exact le_max_left _ _
  · exact max_le (by norm_num) (min_le_left _ _)

theorem abs_ratTrunc_sub_lt (q : ℚ) : |(ratTrunc q : ℚ) - q| < 1 := by
  unfold ratTrunc
  split
  · rw [abs_sub_lt_iff]
    constructor
    · linarith [Int.floor_le q]
    · linarith [Int.sub_one_lt_floor q]
  · rw [abs_sub_lt_iff]
    constructor
    · linarith [Int.ceil_lt_add_one q]
    · linarith [Int.le_ceil q]

theorem encodeSample_mem (s : ℚ) :
    -32767 ≤ encodeSample s ∧ encodeSample s ≤ 32767 := by
  obtain ⟨h1, h2⟩ := clampSample_mem s
  have hq1 : (-32767 : ℚ) ≤ clampSample s * 32767 := by nlinarith
  have hq2 : clampSample s * 32767 ≤ 32767 := by nlinarith
  unfold encodeSample ratTrunc
  split
  · constructor
    · have : (0:ℤ) ≤ ⌊clampSample s * 32767⌋ := by
        rw [Int.le_floor]; push_cast; linarith
      omega
    · rw [Int.floor_le_iff]; push_cast; linarith
  · constructor
    · rw [Int.le_ceil_iff]; push_cast; linarith
    · have : ⌈clampSample s * 32767⌉ ≤ 0 := by
        rw [Int.ceil_le]; push_cast; linarith
      omega

/-- Per-sample bound for `encode ∘ decode`: a 16-bit sample value is
reproduced within one integer step. -/
theorem encode_decode_close {v : ℤ} (h1 : -32768 ≤ v) (h2 : v ≤ 32767) :
    |encodeSample (decodeSample v) - v| ≤ 1 := by
  have h1' : (-32768 : ℚ) ≤ (v : ℚ) := by exact_mod_cast h1
  have h2' : (v : ℚ) ≤ 32767 := by exact_mod_cast h2
  have hm1 : (-1 : ℚ) ≤ (v : ℚ) / 32768 := by
    rw [le_div_iff₀ (by norm_num)]; linarith
  have hm2 : ((v : ℚ)) / 32768 ≤ 1 := by
    rw [div_le_iff₀ (by norm_num)]; linarith
  have hclamp : clampSample ((v : ℚ) / 32768) = (v : ℚ) / 32768 :=
    clampSample_eq_self hm1 hm2
  set q : ℚ := (v : ℚ) / 32768 * 32767 with hq
  have htr := abs_ratTrunc_sub_lt q
  have hqv : |q - (v : ℚ)| ≤ 1 := by
    have : q - (v : ℚ) = -((v : ℚ) / 32768) := by
      field_simp [hq]; ring
    rw [this, abs_neg, abs_div]
    rw [div_le_one (by norm_num)]
    have : |(v : ℚ)| ≤ 32768 := by
      rw [abs_le]; constructor <;> linarith
    simpa using this
  have hsum : |(encodeSample (decodeSample v) : ℚ) - (v : ℚ)| < 2 := by
    have : (encodeSample (decodeSample v) : ℚ) - (v : ℚ) =
        ((ratTrunc q : ℚ) - q) + (q - (v : ℚ)) := by
      simp only [encodeSample, decodeSample, hclamp, hq]
      ring
    rw [this]
    calc |((ratTrunc q : ℚ) - q) + (q - (v : ℚ))|
        ≤ |(ratTrunc q : ℚ) - q| + |q - (v : ℚ)| := abs_add _ _
      _ < 1 + 1 := by apply add_lt_add_of_lt_of_le htr hqv
      _ = 2 := by norm_num
  have : |(encodeSample (decodeSample v) - v : ℤ)| < 2 := by
    have h' : |((encodeSample (decodeSample v) - v : ℤ) : ℚ)| < 2 := by
      push_cast; exact hsum
    exact_mod_cast (abs_lt.mpr (by constructor <;> [exact_mod_cast (abs_lt.mp h').1; exact_mod_cast (abs_lt.mp h').2]))
  omega

/-- Per-sample bound for `decode ∘ encode`: a sample in `[-1,1]` is
reproduced within two quantization steps, i.e. within `1/16384`. -/
theorem decode_encode_close {s : ℚ} (h1 : -1 ≤ s) (h2 : s ≤ 1) :
    |decodeSample (encodeSample s) - s| ≤ 1 / 16384 := by
  have hclamp : clampSample s = s := clampSample_eq_self h1 h2
  set q : ℚ := s * 32767 with hq
  have htr := abs_ratTrunc_sub_lt q
  have habs_s : |s| ≤ 1 := abs_le.mpr ⟨h1, h2⟩
  have hnum : |(ratTrunc q : ℚ) - 32768 * s| < 2 := by
    have : (ratTrunc q : ℚ) - 32768 * s = ((ratTrunc q : ℚ) - q) + (-s) := by
      rw [hq]; ring
    rw [this]
    calc |((ratTrunc q : ℚ) - q) + (-s)|
        ≤ |(ratTrunc q : ℚ) - q| + |(-s)| := abs_add _ _
      _ < 1 + 1 := by
          apply add_lt_add_of_lt_of_le htr
          simpa using habs_s
      _ = 2 := by norm_num
  have : decodeSample (encodeSample s) - s = ((ratTrunc q : ℚ) - 32768 * s) / 32768 := by
    simp [decodeSample, encodeSample, hclamp, hq]
    ring
  rw [this, abs_div]
  rw [div_le_div_iff₀ (by norm_num) (by norm_num)]
  have h32768 : |(32768 : ℚ)| = 32768 := by norm_num
  rw [h32768]
  nlinarith [hnum]

theorem bytesToSample_mem {lo hi : ℕ} (hlo : lo < 256) (hhi : hi < 256) :
    -32768 ≤ bytesToSample lo hi ∧ bytesToSample lo hi ≤ 32767 := by
  simp only [bytesToSample]
  split <;> omega

theorem roundtrip_sample {i : ℤ} (h1 : -32768 ≤ i) (h2 : i ≤ 32767) :
    bytesToSample (toUInt16 i % 256) (toUInt16 i / 256) = i ∧
    toUInt16 i % 256 < 256 ∧ toUInt16 i / 256 < 256 := by
  simp only [bytesToSample, toUInt16]
  refine ⟨?_, by omega, by omega⟩
  split <;> omega

theorem bytesToInts_intsToBytes :
    ∀ {is : List ℤ}, (∀ i ∈ is, -32768 ≤ i ∧ i ≤ 32767) →
      bytesToInts (intsToBytes is) = is := by
  intro is
  induction is with
  | nil => intro _; rfl
  | cons a rest ih =>
      intro h
      have hmem := h a (List.mem_cons_self a rest)
      have hr := roundtrip_sample hmem.1 hmem.2
      have hstep : intsToBytes (a :: rest) =
          toUInt16 a % 256 :: toUInt16 a / 256 :: intsToBytes rest := by
        simp [intsToBytes, sampleToBytes]
      rw [hstep, bytesToInts, hr.1,
        ih (fun i hi => h i (List.mem_cons_of_mem a hi))]

theorem bytesToInts_range :
    ∀ (bs : List ℕ), (∀ b ∈ bs, b < 256) →
      ∀ v ∈ bytesToInts bs, -32768 ≤ v ∧ v ≤ 32767
  | [], _ => by simp [bytesToInts]
  | [b], _ => by simp [bytesToInts]
  | lo :: hi :: rest, hb => by
      intro v hv
      rw [bytesToInts] at hv
      rcases List.mem_cons.mp hv with h | h
      · subst h
        exact bytesToSample_mem (hb lo (by simp)) (hb hi (by simp))
      · exact bytesToInts_range rest
          (fun b hbm => hb b (by simp [hbm])) v h

/-! ### Scheduling lemmas -/

theorem schedule_head_ge (next : ℚ) (cs : List (ℚ × ℚ)) :
    ∀ x ∈ (schedule next cs).head?, next ≤ x := by
  intro x hx
  cases cs with
  | nil => simp [schedule] at hx
  | cons c rest =>
      obtain ⟨t, d⟩ := c
      simp [schedule] at hx
      subst hx
      exact le_max_left _ _

theorem schedule_chain (next : ℚ) (cs : List (ℚ × ℚ))
    (hd : ∀ c ∈ cs, 0 ≤ c.2) : List.Chain' (· ≤ ·) (schedule next cs) := by
  induction cs generalizing next with
  | nil => simp [schedule]
  | cons c rest ih =>
      obtain ⟨t, d⟩ := c
      rw [schedule]
      apply List.chain'_cons'.mpr
      constructor
      · intro y hy
        have h1 := schedule_head_ge (max next t + d) rest y hy
        have hd0 : (0:ℚ) ≤ d := hd (t, d) (by simp)
        calc max next t ≤ max next t + d := by linarith
          _ ≤ y := h1
      · exact ih _ (fun c hc => hd c (List.mem_cons_of_mem _ hc))

theorem schedule_ge (next : ℚ) (cs : List (ℚ × ℚ))
    (hd : ∀ c ∈ cs, 0 ≤ c.2) : ∀ x ∈ schedule next cs, next ≤ x := by
  induction cs generalizing next with
  | nil => simp [schedule]
  | cons c rest ih =>
      obtain ⟨t, d⟩ := c
      intro x hx
      rw [schedule] at hx
      rcases List.mem_cons.mp hx with h | h
      · subst h; exact le_max_left _ _
      · have hx' := ih (max next t + d)
          (fun c hc => hd c (List.mem_cons_of_mem _ hc)) x h
        have hd0 : (0:ℚ) ≤ d := hd (t, d) (by simp)
        calc next ≤ max next t := le_max_left _ _
          _ ≤ max next t + d := by linarith
          _ ≤ x := hx'

theorem schedule_steady (next : ℚ) (cs : List (ℚ × ℚ)) :
    List.Chain' (fun p q => q.2.1 ≤ p.1 + p.2.2 → q.1 = p.1 + p.2.2)
      ((schedule next cs).zip cs) := by
  induction cs generalizing next with
  | nil => simp [schedule]
  | cons c rest ih =>
      obtain ⟨t, d⟩ := c
      rw [schedule]
      apply List.chain'_cons'.mpr
      refine ⟨?_, ih _⟩
      intro q hq hle
      cases rest with
      | nil => simp [schedule] at hq
      | cons c2 r2 =>
          obtain ⟨t2, d2⟩ := c2
          rw [schedule] at hq
          simp at hq
          cases hq
          have hle' : t2 ≤ max next t + d := hle
          show max (max next t + d) t2 = max next t + d
          exact max_eq_left hle'

/-! ## LifecycleManager: refs, handlers and the event machine

The mutable refs of the component (`LiveMode.tsx` lines 13–30) become the
fields of one record; each realtime callback and control function becomes
a step on that record, returning the list of release/side-effect actions
it performed on the underlying devices. -/

/-- `ConnectionState` from `types.ts`. -/
inductive ConnectionState
  | disconnected
  | connecting
  | connected
  | error
deriving DecidableEq, Repr

/-- One scheduled output buffer (an `AudioBufferSourceNode` held in
`sourcesRef`). -/
structure Handle where
  id : ℕ
  startAt : ℚ
  duration : ℚ
  started : Bool
  stopped : Bool
  finished : Bool
deriving DecidableEq, Repr

/-- `AudioBufferSourceNode.stop()`: throws `InvalidStateError` when the
node was never started; otherwise marks it stopped (a no-op if it already
finished or stopped). -/
def rawStop (h : Handle) : Except String Handle :=
  if h.started then .ok { h with stopped := true } else .error "InvalidStateError"

/-- `try { source.stop(); } catch (e) {}` — the guarded stop used by the
interruption handler and by `cleanupAudio`. -/
def tryStop (h : Handle) : Handle :=
  match rawStop h with
  | .ok h' => h'
  | .error _ => h

/-- One microphone capture track of the `MediaStream`. -/
structure Track where
  id : ℕ
  stopped : Bool
deriving DecidableEq, Repr

/-- The microphone `MediaStream` held in `streamRef`. -/
structure MediaStream where
  tracks : List Track
deriving DecidableEq, Repr

/-- An audio graph node (mic source, script processor, or analyser). -/
structure Node where
  id : ℕ
  connected : Bool
deriving DecidableEq, Repr

/-- An `AudioContext` held in `inputAudioContextRef` /
`outputAudioContextRef`. -/
structure Ctx where
  id : ℕ
  closed : Bool
deriving DecidableEq, Repr

/-- A device release or side-effect action performed on the world outside
the component's refs. -/
inductive Action
  | stopSrc (id : ℕ)
  | stopTrack (id : ℕ)
  | disconnectNode (id : ℕ)
  | closeCtx (id : ℕ)
  | logDecodeFailure
deriving DecidableEq, Repr

/-- The component's mutable refs (`LiveMode.tsx` lines 13–30) plus a
fresh-id counter for created handles: connection state, the live playback
handle set `sourcesRef`, the playback clock `nextStartTimeRef`, the
microphone stream, the capture graph nodes, the analyser tap, the two
device contexts, and whether a transport session has been opened. -/
structure LState where
  connectionState : ConnectionState
  sources : List Handle
  nextStartTime : ℚ
  stream : Option MediaStream
  processor : Option Node
  sourceNode : Option Node
  outputAnalyser : Option Node
  inputCtx : Option Ctx
  outputCtx : Option Ctx
  sessionOpen : Bool
  counter : ℕ
deriving DecidableEq, Repr

/-- The state the component mounts with. -/
def initState : LState where
  connectionState := .disconnected
  sources := []
  nextStartTime := 0
  stream := none
  processor := none
  sourceNode := none
  outputAnalyser := none
  inputCtx := none
  outputCtx := none
  sessionOpen := false
  counter := 0

/-- `cleanupAudio` (`LiveMode.tsx` lines 32–66): stop every live playback
source (guarded by try/catch), clear the set; stop every capture track and
drop the stream; disconnect and drop the processor and the mic source
node; close and drop both device contexts; reset `nextStartTime` to 0.
The analyser ref (`outputAnalyserRef`) is not touched by the source code.
Returns the release actions performed and the new state. -/
def cleanupAudio (s : LState) : List Action × LState :=
  let stopActs := s.sources.map (fun h => Action.stopSrc (tryStop h).id)
  let trackActs :=
    match s.stream with
    | some ms => ms.tracks.map (fun t => Action.stopTrack t.id)
    | none => []
  let procActs :=
    match s.processor with
    | some n => [Action.disconnectNode n.id]
    | none => []
  let srcActs :=
    match s.sourceNode with
    | some n => [Action.disconnectNode n.id]
    | none => []
  let inActs :=
    match s.inputCtx with
    | some c => [Action.closeCtx c.id]
    | none => []
  let outActs :=
    match s.outputCtx with
    | some c => [Action.closeCtx c.id]
    | none => []
  (stopActs ++ trackActs ++ procActs ++ srcActs ++ inActs ++ outActs,
    { s with
        sources := []
        stream := none
        processor := none
        sourceNode := none
        inputCtx := none
        outputCtx := none
        nextStartTime := 0 })

/-- An inbound payload; `audioUtils.decodeAudioData` is not among the
sources, so decodability is modelled from the spec as a well-formedness
flag on the payload (`DecodeFailure` on a malformed one). -/
structure Payload where
  wellFormed : Bool
  bytes : List ℕ
deriving DecidableEq, Repr

/-- A decoded playable buffer; only its duration matters to scheduling. -/
structure AudioBuffer where
  duration : ℚ
deriving DecidableEq, Repr

/-- Modelled from the spec: `decodeAudioData` — decode an inbound payload
into a playable buffer at the fixed 24 kHz mono output format (two bytes
per sample, trailing partial sample truncated); fails on a malformed
payload, and per spec 7 the failure is logged and the chunk dropped. -/
def decodeToPlayable (p : Payload) : Option AudioBuffer :=
  if p.wellFormed then some { duration := ((p.bytes.length / 2 : ℕ) : ℚ) / 24000 }
  else none

/-- `LiveServerMessage` as read by `onmessage`: an optional inbound audio
payload and the `interrupted` flag. -/
structure ServerMessage where
  audioData : Option Payload
  interrupted : Bool
deriving DecidableEq, Repr

/-- The interruption branch of `onmessage` (`LiveMode.tsx` lines 171–177):
if the message carries `interrupted`, force-stop every handle in the live
set (guarded by try/catch), clear the set and reset `nextStartTime` to
0. -/
def interruptedBranch (s : LState) (m : ServerMessage) : List Action × LState :=
  if m.interrupted then
    (s.sources.map (fun h => Action.stopSrc (tryStop h).id),
      { s with sources := [], nextStartTime := 0 })
  else ([], s)

/-- `onmessage` (`LiveMode.tsx` lines 134–178) at output-clock reading
`t`: when the message carries audio and the output context ref is set,
first advance `nextStartTime` to `max nextStartTime t`, then decode; a
decode failure aborts the (async) handler there, so the chunk is dropped
and the interruption branch is skipped; on success schedule the buffer at
`nextStartTime`, advance `nextStartTime` by its duration and add the new
handle to the live set.  Afterwards run the interruption branch. -/
def onmessage (s : LState) (t : ℚ) (m : ServerMessage) : List Action × LState :=
  match m.audioData, s.outputCtx with
  | some p, some _ =>
      let s1 := { s with nextStartTime := max s.nextStartTime t }
      match decodeToPlayable p with
      | none => ([Action.logDecodeFailure], s1)
      | some buf =>
          let h : Handle :=
            { id := s1.counter, startAt := s1.nextStartTime,
              duration := buf.duration, started := true,
              stopped := false, finished := false }
          let s2 :=
            { s1 with
                sources := s1.sources ++ [h]
                nextStartTime := s1.nextStartTime + buf.duration
                counter := s1.counter + 1 }
          interruptedBranch s2 m
  | _, _ => interruptedBranch s m

/-- The asynchronous continuations of the component, each run to
completion on the event loop: entering `connectToLive`, the microphone
acquisition resolving, the two failure paths of the `try` block, the
realtime callbacks, `disconnectFromLive`, and the owning view's unmount
cleanup. -/
inductive Ev
  | connectReq
  | mediaOk
  | deviceFail
  | openFail
  | openCb
  | message (t : ℚ) (m : ServerMessage)
  | closeCb
  | errorCb
  | disconnectReq
  | unmount

/-- One event-loop step of the component.  Translated from
`LiveMode.tsx`: `connectReq` is the synchronous prefix of `connectToLive`
(lines 68–85: state to Connecting, fresh contexts, analyser wired to the
destination); `mediaOk` stores the resolved microphone stream (lines
88–89); `deviceFail`/`openFail` are the catch block (lines 194–199);
`openCb` is `onopen` (lines 104–133: state to Connected, then the capture
graph is wired from the captured locals — with no generation check);
`message` is `onmessage`; `closeCb` is `onclose` (lines 179–182);
`errorCb` is `onerror` (lines 183–188); `disconnectReq` is
`disconnectFromLive` (lines 202–214); `unmount` is the effect cleanup
(lines 216–220). -/
def step (s : LState) (e : Ev) : List Action × LState :=
  match e with
  | .connectReq =>
      ([], { s with
              connectionState := .connecting
              inputCtx := some { id := s.counter, closed := false }
              outputCtx := some { id := s.counter + 1, closed := false }
              outputAnalyser := some { id := s.counter + 2, connected := true }
              counter := s.counter + 3 })
  | .mediaOk =>
      let tr : Track := { id := s.counter, stopped := false }
      ([], { s with stream := some { tracks := [tr] }, counter := s.counter + 1 })
  | .deviceFail =>
      let (acts, s') := cleanupAudio { s with connectionState := .error }
      (acts, s')
  | .openFail =>
      let (acts, s') := cleanupAudio { s with connectionState := .error }
      (acts, s')
  | .openCb =>
      ([], { s with
              connectionState := .connected
              sessionOpen := true
              sourceNode := some { id := s.counter, connected := true }
              processor := some { id := s.counter + 1, connected := true }
              counter := s.counter + 2 })
  | .message t m => onmessage s t m
  | .closeCb =>
      let (acts, s') := cleanupAudio { s with connectionState := .disconnected, sessionOpen := false }
      (acts, s')
  | .errorCb =>
      let (acts, s') := cleanupAudio { s with connectionState := .error, sessionOpen := false }
      (acts, s')
  | .disconnectReq =>
      let (acts, s') := cleanupAudio s
      (acts, { s' with connectionState := .disconnected })
  | .unmount =>
      let (acts, s') := cleanupAudio s
      (acts, s')

/-- Run a sequence of event-loop steps, discarding the action logs. -/
def run (s : LState) (evs : List Ev) : LState :=
  evs.foldl (fun s e => (step s e).2) s

/-! ### Lifecycle lemmas -/

theorem run_cons (s : LState) (e : Ev) (rest : List Ev) :
    run s (e :: rest) = run (step s e).2 rest := rfl

theorem interruptedBranch_conn (s : LState) (m : ServerMessage) :
    (interruptedBranch s m).2.connectionState = s.connectionState := by
  rw [interruptedBranch]
  split <;> rfl

theorem onmessage_preserves (s : LState) (t : ℚ) (m : ServerMessage) :
    (onmessage s t m).2.connectionState = s.connectionState ∧
    (onmessage s t m).2.sessionOpen = s.sessionOpen ∧
    (onmessage s t m).2.stream = s.stream ∧
    (onmessage s t m).2.inputCtx = s.inputCtx ∧
    (onmessage s t m).2.outputCtx = s.outputCtx := by
  rw [onmessage]
  split
  · split
    · exact ⟨rfl, rfl, rfl, rfl, rfl⟩
    · refine ⟨?_, ?_, ?_, ?_, ?_⟩ <;>
        (rw [interruptedBranch]; split <;> rfl)
  · refine ⟨?_, ?_, ?_, ?_, ?_⟩ <;>
      (rw [interruptedBranch]; split <;> rfl)

/-- A state (used as a concrete witness input) with five pending playback
handles. -/
def fiveHandles : LState :=
  { initState with
      sources :=
        [0, 1, 2, 3, 4].map (fun k =>
          { id := k, startAt := 0, duration := 1, started := true,
            stopped := false, finished := false }),
      nextStartTime := 5 }

/-- The state after a successful connect: `connectToLive` entered, the
microphone acquired, the transport open callback fired. -/
def readyState : LState :=
  run initState [Ev.connectReq, Ev.mediaOk, Ev.openCb]

/-! ## Claim theorems -/

/-- C1: for every sequence of inbound audio chunks `(t, d)` (output clock
reading `t ≥ 0` at arrival, decoded buffer duration `d ≥ 0`) processed by
the message handler with no interruption in between, each chunk is
scheduled at `startAt = max nextStartTime t`; the start times are
non-decreasing, none is negative, and whenever a chunk arrives with
`nextStartTime` (= prior start + prior duration) at or ahead of the output
clock, its start equals the prior start plus the prior buffer's
duration. -/
theorem C1_gapless_scheduling (cs : List (ℚ × ℚ))
    (_hclock : ∀ c ∈ cs, 0 ≤ c.1) (hdur : ∀ c ∈ cs, 0 ≤ c.2) :
    List.Chain' (· ≤ ·) (schedule 0 cs) ∧
    (∀ x ∈ schedule 0 cs, 0 ≤ x) ∧
    List.Chain' (fun p q => q.2.1 ≤ p.1 + p.2.2 → q.1 = p.1 + p.2.2)
      ((schedule 0 cs).zip cs) :=
  ⟨schedule_chain 0 cs hdur, schedule_ge 0 cs hdur, schedule_steady 0 cs⟩

/-- Witness for C1 at the spec's scenario: three half-second chunks
arriving back to back; scheduled starts are `0, 1/2, 1`. -/
theorem C1_gapless_scheduling_witness :
    (List.Chain' (· ≤ ·) (schedule 0 [(0, 1/2), (1/4, 1/2), (2, 1/2)]) ∧
      (∀ x ∈ schedule 0 [(0, 1/2), (1/4, 1/2), (2, 1/2)], (0:ℚ) ≤ x) ∧
      List.Chain' (fun p q => q.2.1 ≤ p.1 + p.2.2 → q.1 = p.1 + p.2.2)
        ((schedule 0 [(0, 1/2), (1/4, 1/2), (2, 1/2)]).zip
          [(0, 1/2), (1/4, 1/2), (2, 1/2)])) ∧
    ((0:ℚ) ≤ (0:ℚ) ∧ (0:ℚ) ≤ (1/2:ℚ)) :=
  ⟨C1_gapless_scheduling [(0, 1/2), (1/4, 1/2), (2, 1/2)]
      (by intro c hc; fin_cases hc <;> norm_num)
      (by intro c hc; fin_cases hc <;> norm_num),
    by norm_num⟩

/-- C4 as stated is false: the round trip `encode ∘ decode` is not
bit-exact under the spec's own scales (encode by 32767, decode by
1/32768).  The two-byte PCM16 buffer holding the sample value 1 comes
back as the buffer holding 0. -/
theorem C4_round_trip_not_bit_exact :
    encodeFloats (decodeBytes [1, 0]) ≠ [1, 0] := by
  have h1 : bytesToInts [1, 0] = [1] := by
    norm_num [bytesToInts, bytesToSample]
  have h2 : encodeSample (decodeSample 1) = 0 := by
    norm_num [encodeSample, decodeSample, ratTrunc, clampSample]
  have h3 : encodeFloats (decodeBytes [1, 0]) = [0, 0] := by
    rw [decodeBytes, h1]
    simp only [List.map_cons, List.map_nil, encodeFloats, h2]
    norm_num [intsToBytes, sampleToBytes, toUInt16]
  rw [h3]
  simp

/-- C4 (amended): with encode clamping to `[-1,1]`, scaling by 32767 and
truncating to little-endian 16-bit integers, and decode scaling by
1/32768, the round trips are exact only up to quantization error:
`encode (decode bytes)` reproduces each 16-bit sample value within one
integer step (not bit-exactly), and `decode (encode samples)` reproduces
each sample of a `[-1,1]` input within two quantization steps
(`±1/16384`, not `±1/32768`). -/
theorem C4_round_trip_within_quantization
    (bs : List ℕ) (hbytes : ∀ b ∈ bs, b < 256) (_hlen : bs.length % 2 = 0)
    (ss : List ℚ) (hs : ∀ s ∈ ss, -1 ≤ s ∧ s ≤ 1) :
    List.Forall₂ (fun a b => |a - b| ≤ 1)
      (bytesToInts (encodeFloats (decodeBytes bs))) (bytesToInts bs) ∧
    List.Forall₂ (fun a b => |a - b| ≤ (1 : ℚ) / 16384)
      (decodeBytes (encodeFloats ss)) ss := by
  constructor
  · have h1 : bytesToInts (encodeFloats (decodeBytes bs)) =
        (bytesToInts bs).map (encodeSample ∘ decodeSample) := by
      unfold encodeFloats decodeBytes
      rw [List.map_map]
      apply bytesToInts_intsToBytes
      intro i hi
      rw [List.mem_map] at hi
      obtain ⟨v, _, rfl⟩ := hi
      have h := encodeSample_mem (decodeSample v)
      simp only [Function.comp_apply]
      exact ⟨by omega, h.2⟩
    rw [h1, List.forall₂_map_left_iff]
    apply List.forall₂_same.mpr
    intro v hv
    obtain ⟨hv1, hv2⟩ := bytesToInts_range bs hbytes v hv
    simpa using encode_decode_close hv1 hv2
  · have h2 : decodeBytes (encodeFloats ss) =
        ss.map (decodeSample ∘ encodeSample) := by
      unfold encodeFloats decodeBytes
      rw [bytesToInts_intsToBytes ?_, List.map_map]
      intro i hi
      rw [List.mem_map] at hi
      obtain ⟨v, _, rfl⟩ := hi
      have h := encodeSample_mem v
      exact ⟨by omega, h.2⟩
    rw [h2, List.forall₂_map_left_iff]
    apply List.forall₂_same.mpr
    intro s hsm
    obtain ⟨hs1, hs2⟩ := hs s hsm
    simpa using decode_encode_close hs1 hs2

/-- Witness for the amended C4 at the buffer `[1, 0]` and the frame
`[1/2]`. -/
theorem C4_round_trip_within_quantization_witness :
    List.Forall₂ (fun a b => |a - b| ≤ 1)
      (bytesToInts (encodeFloats (decodeBytes [1, 0]))) (bytesToInts [1, 0]) ∧
    List.Forall₂ (fun a b => |a - b| ≤ (1 : ℚ) / 16384)
      (decodeBytes (encodeFloats [1/2])) [1/2] :=
  C4_round_trip_within_quantization [1, 0] (by decide) (by decide)
    [1/2] (by intro s hsm; fin_cases hsm; norm_num)

/-- C2: processing an interruption signal, from any scheduler state,
force-stops every handle in the live set; afterwards the live set is
empty and `nextStartTime = 0`; and stopping a handle that already
finished (hence was started) succeeds rather than faulting. -/
theorem C2_interruption_flushes (s : LState) (t : ℚ) :
    (onmessage s t { audioData := none, interrupted := true }).2.sources = [] ∧
    (onmessage s t { audioData := none, interrupted := true }).2.nextStartTime = 0 ∧
    (∀ h ∈ s.sources,
      Action.stopSrc (tryStop h).id ∈
        (onmessage s t { audioData := none, interrupted := true }).1) ∧
    (∀ h : Handle, h.finished = true → h.started = true →
      rawStop h = Except.ok { h with stopped := true }) := by
  refine ⟨?_, ?_, ?_, ?_⟩
  · simp [onmessage, interruptedBranch]
  · simp [onmessage, interruptedBranch]
  · intro h hh
    simp only [onmessage, interruptedBranch, if_pos]
    exact List.mem_map_of_mem _ hh
  · intro h _ hs
    simp [rawStop, hs]

/-- Witness for C2 at a state with five pending handles. -/
theorem C2_interruption_flushes_witness :
    (onmessage fiveHandles 0 { audioData := none, interrupted := true }).2.sources = [] ∧
    (onmessage fiveHandles 0 { audioData := none, interrupted := true }).2.nextStartTime = 0 :=
  ⟨(C2_interruption_flushes fiveHandles 0).1,
   (C2_interruption_flushes fiveHandles 0).2.1⟩

/-- The set of audio graph nodes still referenced by a state. -/
def graphNodes (s : LState) : List Node :=
  s.sourceNode.toList ++ s.processor.toList ++ s.outputAnalyser.toList

/-- A concrete connected-session state: an open output context whose
analyser tap is wired to the destination. -/
def analyserState : LState :=
  { initState with
      connectionState := .connected
      outputCtx := some { id := 1, closed := false }
      outputAnalyser := some { id := 2, connected := true } }

/-- C3 as stated is false: `cleanupAudio` does not disconnect *every*
audio graph node — the analyser tap (`outputAnalyserRef`, wired to the
destination at connect) is left untouched and still connected after
cleanup runs. -/
theorem C3_analyser_left_connected :
    ¬ (∀ n ∈ graphNodes (cleanupAudio analyserState).2, n.connected = false) := by
  intro h
  have h2 := h { id := 2, connected := true }
    (by simp [graphNodes, cleanupAudio, analyserState, initState])
  simp at h2

/-- C3 (amended): `cleanupAudio` is idempotent — a second consecutive
invocation performs no release action and yields the same end state as
one invocation: every live playback handle stopped (via the guarded
try/catch stop), every capture track stopped, the capture-side graph
nodes (mic source and script processor) disconnected, every device
context closed, the handle set empty and `nextStartTime = 0`.  The
analyser tap, however, is not explicitly disconnected; it is only
released with its closing output context. -/
theorem C3_cleanup_idempotent (s : LState) :
    (cleanupAudio (cleanupAudio s).2).2 = (cleanupAudio s).2 ∧
    (cleanupAudio (cleanupAudio s).2).1 = [] ∧
    (cleanupAudio s).2.sources = [] ∧
    (cleanupAudio s).2.nextStartTime = 0 ∧
    (cleanupAudio s).2.stream = none ∧
    (cleanupAudio s).2.processor = none ∧
    (cleanupAudio s).2.sourceNode = none ∧
    (cleanupAudio s).2.inputCtx = none ∧
    (cleanupAudio s).2.outputCtx = none ∧
    (∀ h ∈ s.sources, Action.stopSrc (tryStop h).id ∈ (cleanupAudio s).1) ∧
    (∀ ms, s.stream = some ms →
      ∀ tr ∈ ms.tracks, Action.stopTrack tr.id ∈ (cleanupAudio s).1) ∧
    (∀ n, s.processor = some n → Action.disconnectNode n.id ∈ (cleanupAudio s).1) ∧
    (∀ n, s.sourceNode = some n → Action.disconnectNode n.id ∈ (cleanupAudio s).1) ∧
    (∀ c, s.inputCtx = some c → Action.closeCtx c.id ∈ (cleanupAudio s).1) ∧
    (∀ c, s.outputCtx = some c → Action.closeCtx c.id ∈ (cleanupAudio s).1) := by
  refine ⟨?_, ?_, ?_, ?_, ?_, ?_, ?_, ?_, ?_, ?_, ?_, ?_, ?_, ?_, ?_⟩
  · simp [cleanupAudio]
  · simp [cleanupAudio]
  · simp [cleanupAudio]
  · simp [cleanupAudio]
  · simp [cleanupAudio]
  · simp [cleanupAudio]
  · simp [cleanupAudio]
  · simp [cleanupAudio]
  · simp [cleanupAudio]
  · intro h hh
    simp [cleanupAudio]
    exact Or.inl ⟨h, hh, rfl⟩
  · intro ms hms tr htr
    simp [cleanupAudio, hms]
    exact Or.inl ⟨tr, htr, rfl⟩
  · intro n hn
    simp [cleanupAudio, hn]
  · intro n hn
    simp [cleanupAudio, hn]
  · intro c hc
    simp [cleanupAudio, hc]
  · intro c hc
    simp [cleanupAudio, hc]

/-- Witness for the amended C3 at the post-connect state: double cleanup
is a no-op over single cleanup, and the input device context is closed by
the first invocation. -/
theorem C3_cleanup_idempotent_witness :
    (cleanupAudio (cleanupAudio readyState).2).2 = (cleanupAudio readyState).2 ∧
    (cleanupAudio (cleanupAudio readyState).2).1 = [] ∧
    Action.closeCtx 0 ∈ (cleanupAudio readyState).1 := by
  obtain ⟨h1, h2, -, -, -, -, -, -, -, -, -, -, -, hin, -⟩ :=
    C3_cleanup_idempotent readyState
  exact ⟨h1, h2, hin { id := 0, closed := false } rfl⟩

/-- C5 fails on the code (the spec's required generation check is absent):
when `connectToLive` starts, the owning view's cleanup runs while the
session open is still pending, and the transport open callback then
resolves, the late resolution is *not* discarded — the handler wires the
capture graph from its captured locals and sets the state to Connected,
after cleanup already ran (which had left the processor ref empty). -/
theorem C5_late_open_not_discarded :
    (run initState [Ev.connectReq, Ev.unmount]).processor = none ∧
    (run initState [Ev.connectReq, Ev.unmount, Ev.openCb]).processor.isSome = true ∧
    (run initState [Ev.connectReq, Ev.unmount, Ev.openCb]).connectionState =
      ConnectionState.connected := by
  refine ⟨rfl, rfl, rfl⟩

/-- Auxiliary induction for C6: a run can only end Connected if the open
callback occurred or the start state was already Connected. -/
theorem connected_requires_open_aux (evs : List Ev) :
    ∀ s : LState, (run s evs).connectionState = ConnectionState.connected →
      Ev.openCb ∈ evs ∨ s.connectionState = ConnectionState.connected := by
  induction evs with
  | nil => exact fun s h => Or.inr h
  | cons e rest ih =>
      intro s h
      rw [run_cons] at h
      rcases ih _ h with hmem | hstate
      · exact Or.inl (List.mem_cons_of_mem _ hmem)
      · cases e with
        | connectReq => simp [step] at hstate
        | mediaOk => exact Or.inr hstate
        | deviceFail => simp [step, cleanupAudio] at hstate
        | openFail => simp [step, cleanupAudio] at hstate
        | openCb => exact Or.inl (List.mem_cons_self _ _)
        | message t m =>
            right
            rw [show (step s (Ev.message t m)).2 = (onmessage s t m).2 from rfl,
              (onmessage_preserves s t m).1] at hstate
            exact hstate
        | closeCb => simp [step, cleanupAudio] at hstate
        | errorCb => simp [step, cleanupAudio] at hstate
        | disconnectReq => simp [step, cleanupAudio] at hstate
        | unmount =>
            right
            simpa [step, cleanupAudio] using hstate

/-- C6: starting from the mounted state, the connection state is
Connected only if the transport's open callback fired at some point of
the run — it is never set optimistically. -/
theorem C6_connected_only_after_open (evs : List Ev)
    (h : (run initState evs).connectionState = ConnectionState.connected) :
    Ev.openCb ∈ evs := by
  rcases connected_requires_open_aux evs initState h with hm | hs
  · exact hm
  · simp [initState] at hs

/-- Witness for C6 on a run that does reach Connected. -/
theorem C6_connected_only_after_open_witness :
    Ev.openCb ∈ [Ev.connectReq, Ev.mediaOk, Ev.openCb] :=
  C6_connected_only_after_open [Ev.connectReq, Ev.mediaOk, Ev.openCb] rfl

/-- C7: each of DeviceAcquisitionFailure (`deviceFail`),
TransportOpenFailure (`openFail`) and TransportRuntimeError (`errorCb`)
moves the connection state to Error and triggers full cleanup; the
failure is not process-fatal — a fresh connect attempt from the resulting
state re-enters Connecting. -/
theorem C7_failure_error_cleanup_retry (s : LState) (e : Ev)
    (he : e = Ev.deviceFail ∨ e = Ev.openFail ∨ e = Ev.errorCb) :
    (step s e).2.connectionState = ConnectionState.error ∧
    (step s e).2.sources = [] ∧
    (step s e).2.nextStartTime = 0 ∧
    (step s e).2.stream = none ∧
    (step s e).2.processor = none ∧
    (step s e).2.sourceNode = none ∧
    (step s e).2.inputCtx = none ∧
    (step s e).2.outputCtx = none ∧
    (step (step s e).2 Ev.connectReq).2.connectionState =
      ConnectionState.connecting := by
  rcases he with rfl | rfl | rfl <;>
    exact ⟨rfl, rfl, rfl, rfl, rfl, rfl, rfl, rfl, rfl⟩

/-- Witness for C7: a device acquisition failure at the post-connect
state. -/
theorem C7_failure_error_cleanup_retry_witness :
    (step readyState Ev.deviceFail).2.connectionState = ConnectionState.error ∧
    (step (step readyState Ev.deviceFail).2 Ev.connectReq).2.connectionState =
      ConnectionState.connecting := by
  obtain ⟨h1, -, -, -, -, -, -, -, h9⟩ :=
    C7_failure_error_cleanup_retry readyState Ev.deviceFail (Or.inl rfl)
  exact ⟨h1, h9⟩

/-- C8: a chunk whose decode fails is logged and dropped, and nothing
else happens: the session stays open, the connection state, the live
handle set, the stream and both contexts are unchanged — and a following
well-formed chunk is still scheduled. -/
theorem C8_decode_failure_local (s : LState) (t t' : ℚ) (p p' : Payload)
    (hbad : p.wellFormed = false) (hgood : p'.wellFormed = true)
    (c : Ctx) (hctx : s.outputCtx = some c) :
    (onmessage s t { audioData := some p, interrupted := false }).1 =
      [Action.logDecodeFailure] ∧
    (onmessage s t { audioData := some p, interrupted := false }).2.connectionState
      = s.connectionState ∧
    (onmessage s t { audioData := some p, interrupted := false }).2.sessionOpen
      = s.sessionOpen ∧
    (onmessage s t { audioData := some p, interrupted := false }).2.sources
      = s.sources ∧
    (onmessage s t { audioData := some p, interrupted := false }).2.stream
      = s.stream ∧
    (onmessage s t { audioData := some p, interrupted := false }).2.inputCtx
      = s.inputCtx ∧
    (onmessage s t { audioData := some p, interrupted := false }).2.outputCtx
      = s.outputCtx ∧
    ((onmessage
        (onmessage s t { audioData := some p, interrupted := false }).2
        t' { audioData := some p', interrupted := false }).2.sources.length
      = s.sources.length + 1) := by
  refine ⟨?_, ?_, ?_, ?_, ?_, ?_, ?_, ?_⟩ <;>
    simp [onmessage, hctx, hbad, hgood, decodeToPlayable, interruptedBranch]

/-- Witness for C8: a malformed chunk then a well-formed one at the
post-connect state. -/
theorem C8_decode_failure_local_witness :
    (onmessage readyState 0
      { audioData := some { wellFormed := false, bytes := [] },
        interrupted := false }).1 = [Action.logDecodeFailure] ∧
    ((onmessage
        (onmessage readyState 0
          { audioData := some { wellFormed := false, bytes := [] },
            interrupted := false }).2
        0 { audioData := some { wellFormed := true, bytes := [0, 0] },
            interrupted := false }).2.sources.length
      = readyState.sources.length + 1) := by
  obtain ⟨h1, -, -, -, -, -, -, h8⟩ :=
    C8_decode_failure_local readyState 0 0
      { wellFormed := false, bytes := [] }
      { wellFormed := true, bytes := [0, 0] }
      rfl rfl { id := 1, closed := false } rfl
  exact ⟨h1, h8⟩

/-- The sum of squared samples of a captured frame (`onaudioprocess`,
`LiveMode.tsx` lines 122–123). -/
def sumSquares (l : List ℚ) : ℚ :=
  (l.map (fun x => x * x)).sum

/-- The input level emitted per captured frame (`LiveMode.tsx` lines
124–125): `min 1 (rms * 5)` where `rms = sqrt (sumSquares / length)`. -/
noncomputable def inputLevel (l : List ℚ) : ℝ :=
  min 1 (Real.sqrt ((sumSquares l : ℝ) / (l.length : ℝ)) * 5)

/-- C9: for every captured frame, the emitted input level — the RMS of
the frame's samples scaled by the fixed gain 5 and clamped above by 1 —
lies in `[0, 1]`. -/
theorem C9_input_level_in_unit_interval (l : List ℚ) :
    0 ≤ inputLevel l ∧ inputLevel l ≤ 1 := by
  constructor
  · apply le_min
    · norm_num
    · positivity
  · exact min_le_left _ _

/-- C10: a message carrying both an audio payload and the interrupted
flag runs the audio branch first and the interruption branch second: the
buffer scheduled from that same message (handle id `s.counter`) is
force-stopped, and the handler leaves the live set empty with
`nextStartTime = 0`. -/
theorem C10_audio_then_interrupt (s : LState) (t : ℚ) (p : Payload)
    (hp : p.wellFormed = true) (c : Ctx) (hctx : s.outputCtx = some c) :
    (onmessage s t { audioData := some p, interrupted := true }).2.sources = [] ∧
    (onmessage s t { audioData := some p, interrupted := true }).2.nextStartTime = 0 ∧
    Action.stopSrc s.counter ∈
      (onmessage s t { audioData := some p, interrupted := true }).1 := by
  refine ⟨?_, ?_, ?_⟩
  · simp [onmessage, hctx, hp, decodeToPlayable, interruptedBranch]
  · simp [onmessage, hctx, hp, decodeToPlayable, interruptedBranch]
  · simp [onmessage, hctx, hp, decodeToPlayable, interruptedBranch, tryStop, rawStop]

/-- Witness for C10: an audio+interrupted message at the post-connect
state. -/
theorem C10_audio_then_interrupt_witness :
    (onmessage readyState 0
      { audioData := some { wellFormed := true, bytes := [0, 0] },
        interrupted := true }).2.sources = [] ∧
    (onmessage readyState 0
      { audioData := some { wellFormed := true, bytes := [0, 0] },
        interrupted := true }).2.nextStartTime = 0 ∧
    Action.stopSrc readyState.counter ∈
      (onmessage readyState 0
        { audioData := some { wellFormed := true, bytes := [0, 0] },
          interrupted := true }).1 :=
  C10_audio_then_interrupt readyState 0
    { wellFormed := true, bytes := [0, 0] } rfl
    { id := 1, closed := false } rfl

end LiveAgent
